import Mathlib

/-!
Verification of the MelPE test-time-augmentation decoder and inference
post-processing (`torchfcpe/models_infer.py`).

The development shallowly embeds the two relevant pieces of the source:

* `ensemble_f0` (source lines 18-80): the multi-hypothesis Viterbi decoder.
  The dynamic program is embedded generically over a linear ordered field
  (`transCost`, `dpT`, `backtrack`, `chosenIdx`, `pathCost`), and the full
  pipeline including the Hz-to-note front end (`hzToNote`, `compensate`)
  is instantiated at the reals, where `torch.log2` is modelled by
  `Real.logb 2` and `2 ** (key_shift / 12)` by a real power.
  The source mutates `f0_list` in place at line 23 (storing the
  key-shift-compensated Hz values) and the backtrack at lines 72-78 reads
  those compensated values; the embedding mirrors this by emitting
  `compensate` values.  Batch items are independent in the source (and the
  `if notes[:, t, c] <= 0:` test only runs for batch size 1), so the
  embedding models a single batch item.  `torch.min(dim=-1)` returns the
  value and first minimising index, modelled by a left-to-right scan
  keeping the strictly smaller element (`argminAux`).

* `InferCFNaiveMelPE.infer` (source lines 123-205): modelled as a pure
  function in state-passing style.  The pitch extractor
  (`self.__call__`, an external model) and the unvoiced-gap interpolator
  (`batch_interp_with_replacement_detach`, external collaborator) are
  parameters.  Python's in-place `tta_key_shifts.sort(...)` is modelled by
  returning the final state of the key-shift list in the result; Python's
  stable `list.sort(key=...)` is modelled by a stable insertion sort
  comparing keys.  `int(None)` raising `TypeError` and a failing `assert`
  are modelled by `Except.error`.
-/

/-- Left-to-right scan keeping the index of the first strictly smallest
value so far; models how `torch.min(..., dim=-1)` selects the first
minimising index. -/
def argminAux {α : Type} [LinearOrder α] {n : ℕ} (f : Fin n → α) :
    Fin n → List (Fin n) → Fin n
  | best, [] => best
  | best, a :: l => if f a < f best then argminAux f a l else argminAux f best l

/-- Index of the first minimum of `f` over all of `Fin (n+1)`,
models the index output of `torch.min(..., dim=-1)`. -/
def argminFin {α : Type} [LinearOrder α] {n : ℕ} (f : Fin (n + 1) → α) : Fin (n + 1) :=
  argminAux f 0 (List.finRange (n + 1))

/-- The minimum value of `f`, models the value output of
`torch.min(..., dim=-1)` (the value at the first minimising index). -/
def minRow {α : Type} [LinearOrder α] {n : ℕ} (f : Fin (n + 1) → α) : α :=
  f (argminFin f)

/-- Cost of arriving at a frame whose selected note is `curNote` from a
predecessor frame whose note is `prevNote` (source lines 43-70).
If the current note is unvoiced (`<= 0`) the cost is `uv_penalty`
regardless of the predecessor; otherwise the squared note distance is
masked by the predecessor's voiced indicator, reduced by the `0.5`
dead zone and clamped at `0`, and an unvoiced predecessor adds
`2 * uv_penalty`. -/
def transCost {α : Type} [LinearOrderedField α] (uvPenalty prevNote curNote : α) : α :=
  if curNote ≤ 0 then uvPenalty
  else
    (if 0 < (prevNote - curNote) ^ 2 * (if 0 < prevNote then (1 : α) else 0) - 1 / 2
     then (prevNote - curNote) ^ 2 * (if 0 < prevNote then (1 : α) else 0) - 1 / 2
     else 0)
    + (1 - (if 0 < prevNote then (1 : α) else 0)) * uvPenalty * 2

/-- The dynamic-programming table of `ensemble_f0` (source lines 36-70):
`dpT uvPenalty note t c` is `dp[0, t, c]`, with frame-0 initialisation
`(notes[:, 0, :] <= 0) * uv_penalty`. -/
def dpT {α : Type} [LinearOrderedField α] {n : ℕ} (uvPenalty : α)
    (note : ℕ → Fin (n + 1) → α) : ℕ → Fin (n + 1) → α
  | 0, c => if note 0 c ≤ 0 then uvPenalty else 0
  | t + 1, c =>
    minRow fun cp => dpT uvPenalty note t cp + transCost uvPenalty (note t cp) (note (t + 1) c)

/-- The backtrack table of `ensemble_f0` (source lines 38-70): the
predecessor hypothesis recorded for frame `t` ending at hypothesis `c`;
row 0 is the zero initialisation (never used by the output). -/
def backtrack {α : Type} [LinearOrderedField α] {n : ℕ} (uvPenalty : α)
    (note : ℕ → Fin (n + 1) → α) : ℕ → Fin (n + 1) → Fin (n + 1)
  | 0, _ => 0
  | t + 1, c =>
    argminFin fun cp => dpT uvPenalty note t cp + transCost uvPenalty (note t cp) (note (t + 1) c)

/-- The index walk of the backtrack loop (source lines 73-78):
`chosenIdx uvPenalty note tLast i` is the hypothesis selected for frame
`tLast - i`, starting from the argmin over the last dp row. -/
def chosenIdx {α : Type} [LinearOrderedField α] {n : ℕ} (uvPenalty : α)
    (note : ℕ → Fin (n + 1) → α) (tLast : ℕ) : ℕ → Fin (n + 1)
  | 0 => argminFin (dpT uvPenalty note tLast)
  | i + 1 => backtrack uvPenalty note (tLast - i) (chosenIdx uvPenalty note tLast i)

/-- Accumulated penalty of the hypothesis path `p` through frames
`0 .. t` under the penalty model of `ensemble_f0`: frame-0
initialisation plus the per-frame transition costs. -/
def pathCost {α : Type} [LinearOrderedField α] {n : ℕ} (uvPenalty : α)
    (note : ℕ → Fin (n + 1) → α) (p : ℕ → Fin (n + 1)) : ℕ → α
  | 0 => if note 0 (p 0) ≤ 0 then uvPenalty else 0
  | t + 1 => pathCost uvPenalty note p t + transCost uvPenalty (note t (p t)) (note (t + 1) (p (t + 1)))

/-- The Hz-to-note conversion of `ensemble_f0` (source lines 24-26):
exact zeros are replaced by `1e-6` before the logarithm, the standard
Hz-to-MIDI map `12 * log2(f / 440) + 69` is applied, and negative notes
are floored to `0`. -/
noncomputable def hzToNote (f : ℝ) : ℝ :=
  if Real.logb 2 ((f + (if f = 0 then (1 : ℝ) else 0) * (1 / 1000000)) / 440) * 12 + 69 < 0
  then 0
  else Real.logb 2 ((f + (if f = 0 then (1 : ℝ) else 0) * (1 / 1000000)) / 440) * 12 + 69

/-- Key-shift compensation of `ensemble_f0` (source lines 22-23):
`f0 / 2 ** (key_shift / 12)`.  The source stores this back into
`f0_list`, so these are also the Hz values the backtrack emits. -/
noncomputable def compensate {n : ℕ} (f0In : ℕ → Fin (n + 1) → ℝ)
    (keyShift : Fin (n + 1) → ℝ) (t : ℕ) (c : Fin (n + 1)) : ℝ :=
  f0In t c / (2 : ℝ) ^ (keyShift c / 12)

/-- The note matrix consumed by the dynamic program of `ensemble_f0`
(source lines 20-27): notes of the compensated Hz values. -/
noncomputable def ensembleNotes {n : ℕ} (f0In : ℕ → Fin (n + 1) → ℝ)
    (keyShift : Fin (n + 1) → ℝ) : ℕ → Fin (n + 1) → ℝ :=
  fun t c => hzToNote (compensate f0In keyShift t c)

/-- `ensemble_f0` (source lines 18-80) for one batch item:
`f0In t c` is hypothesis `c` at frame `t`, `keyShift c` its key shift,
frames run from `0` to `tLast`.  The unvoiced penalty is the square of
`tta_uv_penalty` (line 33); the result at frame `t` is the compensated
Hz value of the hypothesis selected by the backtrack walk. -/
noncomputable def ensemble_f0 {n : ℕ} (f0In : ℕ → Fin (n + 1) → ℝ)
    (keyShift : Fin (n + 1) → ℝ) (ttaUvPenalty : ℝ) (tLast : ℕ) : ℕ → ℝ :=
  fun t =>
    compensate f0In keyShift t
      (chosenIdx (ttaUvPenalty ^ 2) (ensembleNotes f0In keyShift) tLast (tLast - t))

/-- Number of voiced (nonzero) frames among the first `tCount` frames of
a decoded sequence. -/
noncomputable def voicedCountR (f : ℕ → ℝ) (tCount : ℕ) : ℕ :=
  ((Finset.range tCount).filter fun t => f t ≠ 0).card

/-- The sort key used for the augmentation key shifts
(source line 160): `x if x >= 0 else -x / 2`. -/
def ttaSortKey (x : ℚ) : ℚ :=
  if 0 ≤ x then x else -x / 2

/-- `tta_key_shifts.sort(key=...)` (source line 160): Python's stable
sort by key, modelled by a stable insertion sort comparing keys. -/
def sortShifts (l : List ℚ) : List ℚ :=
  List.insertionSort (fun a b => ttaSortKey a ≤ ttaSortKey b) l

/-- `torch.nn.functional.interpolate(..., mode="nearest")` on one
channel (source lines 190-202): pure nearest-neighbor index remapping
to `len` output frames. -/
def resampleNearest (l : List ℝ) (len : ℕ) : List ℝ :=
  (List.range len).map fun j => l.getD (j * l.length / len) 0

/-- `f0[f0 > f0_max] = f0_max` (source line 189). -/
noncomputable def clampMax (m : ℝ) (l : List ℝ) : List ℝ :=
  l.map fun x => if m < x then m else x

/-- `ensemble_f0` on list-shaped inputs as they occur in `infer`
(source lines 165-169): the frame count is the length of the first
hypothesis sequence, hypotheses are indexed by position. -/
noncomputable def ensembleList (f0List : List (List ℝ)) (keyShifts : List ℚ)
    (ttaUvPenalty : ℝ) : List ℝ :=
  match f0List with
  | [] => []
  | f :: fs =>
    (List.range f.length).map
      (ensemble_f0 (n := fs.length)
        (fun t c => ((f :: fs).getD c.1 []).getD t 0)
        (fun c => ((keyShifts.getD c.1 0 : ℚ) : ℝ))
        ttaUvPenalty (f.length - 1))

/-- Result of `InferCFNaiveMelPE.infer`: the returned frequency
sequence, the voicing mask when requested, and the final state of the
caller's `tta_key_shifts` list (which the source sorts in place). -/
structure InferResult where
  f0 : List ℝ
  uv : Option (List ℝ)
  keyShifts : List ℚ

/-- Post-processing tail of `InferCFNaiveMelPE.infer`
(source lines 172-205): voicing-source selection, thresholding,
optional gap interpolation, optional clamping, optional resampling, and
the `retur_uv` return.  `fillGaps` stands for the external
`batch_interp_with_replacement_detach` collaborator.  When `retur_uv`
is set and no target length is given, the source evaluates
`int(None)`, which raises `TypeError`. -/
noncomputable def inferPost (extract : ℚ → List ℝ)
    (fillGaps : List ℝ → List ℝ → List ℝ) (modelF0Min : ℝ)
    (f0Min f0Max : Option ℝ) (interpUv : Bool) (target : Option ℕ)
    (returUv : Bool) (tta : Bool) (useOriginUv : Bool) (shifts : List ℚ)
    (f0List : Option (List (List ℝ))) (f0 : List ℝ) : Except String InferResult :=
  let f0ForUv :=
    if tta && useOriginUv then
      (if shifts.head? = some 0 then (f0List.getD []).getD 0 [] else extract 0)
    else f0
  let fmin := f0Min.getD modelF0Min
  let uv : List ℝ := f0ForUv.map fun x => if x < fmin then (1 : ℝ) else 0
  let f0a := (f0.zip uv).map fun p => p.1 * (1 - p.2)
  let f0b := if interpUv then fillGaps uv f0a else f0a
  let f0c := match f0Max with
    | some m => clampMax m f0b
    | none => f0b
  let f0d := match target with
    | some len => resampleNearest f0c len
    | none => f0c
  if returUv then
    match target with
    | none => Except.error "TypeError: int() argument must be a number, not NoneType"
    | some len => Except.ok ⟨f0d, some (resampleNearest uv len), shifts⟩
  else Except.ok ⟨f0d, none, shifts⟩

/-- `InferCFNaiveMelPE.infer` (source lines 123-205) in state-passing
style for one batch item.  `extract k` stands for the external pitch
extractor `self.__call__(wav, sr, decoder_mode, threshold, k)`.  With
augmentation the source asserts the key-shift list nonempty, sorts it
in place by `ttaSortKey`, extracts once per shift and merges with
`ensemble_f0`; otherwise it extracts once at shift 0. -/
noncomputable def infer (extract : ℚ → List ℝ)
    (fillGaps : List ℝ → List ℝ → List ℝ) (modelF0Min : ℝ)
    (f0Min f0Max : Option ℝ) (interpUv : Bool) (target : Option ℕ)
    (returUv : Bool) (tta : Bool) (ttaUvPenalty : ℝ) (ttaKeyShifts : List ℚ)
    (useOriginUv : Bool) : Except String InferResult :=
  if tta then
    if ttaKeyShifts = [] then
      Except.error "AssertionError: assert len(tta_key_shifts) > 0"
    else
      inferPost extract fillGaps modelF0Min f0Min f0Max interpUv target returUv
        tta useOriginUv (sortShifts ttaKeyShifts)
        (some ((sortShifts ttaKeyShifts).map extract))
        (ensembleList ((sortShifts ttaKeyShifts).map extract)
          (sortShifts ttaKeyShifts) ttaUvPenalty)
  else
    inferPost extract fillGaps modelF0Min f0Min f0Max interpUv target returUv
      tta useOriginUv ttaKeyShifts none (extract 0)

/-- Two-hypothesis input (key shifts both 0): the first hypothesis is
all-voiced with constant 440 Hz, the second all-unvoiced. -/
noncomputable def vConstIn : ℕ → Fin 2 → ℝ :=
  fun _ c => if c = 0 then 440 else 0

/-- Two-hypothesis input (key shifts both 0): the first hypothesis is
440 Hz on frame 0 and 880 Hz afterwards, the second all-unvoiced. -/
noncomputable def altIn : ℕ → Fin 2 → ℝ :=
  fun t c => if c = 0 then (if t = 0 then 440 else 880) else 0

lemma argminAux_le {α : Type} [LinearOrder α] {n : ℕ} (f : Fin n → α) :
    ∀ (l : List (Fin n)) (best : Fin n),
      f (argminAux f best l) ≤ f best ∧ ∀ c ∈ l, f (argminAux f best l) ≤ f c := by
  intro l
  induction l with
  | nil => intro best; exact ⟨le_refl _, by simp⟩
  | cons a l ih =>
    intro best
    by_cases h : f a < f best
    · have hrec := ih a
      rw [argminAux, if_pos h]
      refine ⟨le_trans hrec.1 h.le, ?_⟩
      intro c hc
      rcases List.mem_cons.mp hc with hc | hc
      · exact hc ▸ hrec.1
      · exact hrec.2 c hc
    · have hrec := ih best
      rw [argminAux, if_neg h]
      refine ⟨hrec.1, ?_⟩
      intro c hc
      rcases List.mem_cons.mp hc with hc | hc
      · exact hc ▸ le_trans hrec.1 (not_lt.mp h)
      · exact hrec.2 c hc

lemma minRow_le {α : Type} [LinearOrder α] {n : ℕ} (f : Fin (n + 1) → α) (c : Fin (n + 1)) :
    minRow f ≤ f c :=
  (argminAux_le f (List.finRange (n + 1)) 0).2 c (List.mem_finRange c)

lemma dpT_succ {α : Type} [LinearOrderedField α] {n : ℕ} (uvPenalty : α)
    (note : ℕ → Fin (n + 1) → α) (t : ℕ) (c : Fin (n + 1)) :
    dpT uvPenalty note (t + 1) c =
      dpT uvPenalty note t (backtrack uvPenalty note (t + 1) c) +
        transCost uvPenalty (note t (backtrack uvPenalty note (t + 1) c)) (note (t + 1) c) :=
  rfl

lemma pathCost_congr {α : Type} [LinearOrderedField α] {n : ℕ} (uvPenalty : α)
    (note : ℕ → Fin (n + 1) → α) (p q : ℕ → Fin (n + 1)) :
    ∀ t : ℕ, (∀ s, s ≤ t → p s = q s) →
      pathCost uvPenalty note p t = pathCost uvPenalty note q t := by
  intro t
  induction t with
  | zero => intro h; simp [pathCost, h 0 (le_refl 0)]
  | succ t ih =>
    intro h
    rw [pathCost, pathCost, ih (fun s hs => h s (hs.trans (Nat.le_succ t))),
      h t (Nat.le_succ t), h (t + 1) (le_refl _)]

/-- Forward direction of Viterbi optimality: the dp entry is a lower
bound on the cost of every path ending at `(t, c)`. -/
lemma dpT_le_pathCost {α : Type} [LinearOrderedField α] {n : ℕ} (uvPenalty : α)
    (note : ℕ → Fin (n + 1) → α) :
    ∀ (t : ℕ) (c : Fin (n + 1)) (p : ℕ → Fin (n + 1)), p t = c →
      dpT uvPenalty note t c ≤ pathCost uvPenalty note p t := by
  intro t
  induction t with
  | zero =>
    intro c p hp
    rw [pathCost, hp, dpT]
  | succ t ih =>
    intro c p hp
    rw [pathCost, hp]
    calc dpT uvPenalty note (t + 1) c
        ≤ dpT uvPenalty note t (p t) + transCost uvPenalty (note t (p t)) (note (t + 1) c) :=
          minRow_le _ (p t)
      _ ≤ pathCost uvPenalty note p t + transCost uvPenalty (note t (p t)) (note (t + 1) c) := by
          have := ih (p t) p rfl
          exact add_le_add_right this _

/-- Backward direction of Viterbi optimality: the dp entry is realised
by some path ending at `(t, c)`. -/
lemma exists_path_pathCost_eq_dpT {α : Type} [LinearOrderedField α] {n : ℕ} (uvPenalty : α)
    (note : ℕ → Fin (n + 1) → α) :
    ∀ (t : ℕ) (c : Fin (n + 1)), ∃ p : ℕ → Fin (n + 1),
      p t = c ∧ pathCost uvPenalty note p t = dpT uvPenalty note t c := by
  intro t
  induction t with
  | zero =>
    intro c
    exact ⟨fun _ => c, rfl, rfl⟩
  | succ t ih =>
    intro c
    obtain ⟨p, hpt, hpc⟩ := ih (backtrack uvPenalty note (t + 1) c)
    refine ⟨fun s => if s = t + 1 then c else p s, by simp, ?_⟩
    rw [pathCost]
    have hne : t ≠ t + 1 := by omega
    rw [show (if t = t + 1 then c else p t) = p t from if_neg hne,
      show (if t + 1 = t + 1 then c else p (t + 1)) = c from if_pos rfl,
      pathCost_congr uvPenalty note _ p t
        (fun s hs => by simp [Nat.ne_of_lt (Nat.lt_succ_of_le hs)]), hpc, hpt]
    exact (dpT_succ uvPenalty note t c).symm

/-- The path reconstructed by the backtrack loop realises, frame by
frame, the dp value of the index it visits; in particular at `tLast`
its cost is the minimum of the final dp row. -/
lemma pathCost_chosenIdx {α : Type} [LinearOrderedField α] {n : ℕ} (uvPenalty : α)
    (note : ℕ → Fin (n + 1) → α) (tLast : ℕ) :
    ∀ t : ℕ, t ≤ tLast →
      pathCost uvPenalty note (fun s => chosenIdx uvPenalty note tLast (tLast - s)) t =
        dpT uvPenalty note t (chosenIdx uvPenalty note tLast (tLast - t)) := by
  intro t
  induction t with
  | zero => intro _; rfl
  | succ t ih =>
    intro ht
    have hstep : tLast - t = (tLast - (t + 1)) + 1 := by omega
    have hidx : chosenIdx uvPenalty note tLast (tLast - t) =
        backtrack uvPenalty note (t + 1) (chosenIdx uvPenalty note tLast (tLast - (t + 1))) := by
      rw [hstep, chosenIdx]
      congr 1
      omega
    rw [pathCost, ih (le_of_lt (Nat.lt_of_succ_le ht)), hidx, dpT_succ]

lemma hzToNote_440 : hzToNote 440 = 69 := by
  have harg : ((440 : ℝ) + (if (440 : ℝ) = 0 then (1 : ℝ) else 0) * (1 / 1000000)) / 440 = 1 := by
    rw [if_neg (by norm_num : ¬(440 : ℝ) = 0)]
    norm_num
  rw [hzToNote, harg, Real.logb_one]
  norm_num

lemma hzToNote_880 : hzToNote 880 = 81 := by
  have harg : ((880 : ℝ) + (if (880 : ℝ) = 0 then (1 : ℝ) else 0) * (1 / 1000000)) / 440 = 2 := by
    rw [if_neg (by norm_num : ¬(880 : ℝ) = 0)]
    norm_num
  rw [hzToNote, harg, Real.logb_self_eq_one (by norm_num)]
  norm_num

lemma hzToNote_zero : hzToNote 0 = 0 := by
  have hlt : Real.logb 2 ((0 + (1 : ℝ) * (1 / 1000000)) / 440) * 12 + 69 < 0 := by
    have h64 : Real.logb 2 ((0 + (1 : ℝ) * (1 / 1000000)) / 440) < Real.logb 2 (1 / 64) := by
      apply Real.logb_lt_logb (by norm_num) (by norm_num) (by norm_num)
    have hv : Real.logb 2 (1 / 64) = -6 := by
      have h1 : ((1 : ℝ) / 64) = (2 : ℝ) ^ (-6 : ℝ) := by
        rw [show (-6 : ℝ) = ((-6 : ℤ) : ℝ) by norm_num, Real.rpow_intCast]
        norm_num
      rw [h1, Real.logb_rpow (by norm_num) (by norm_num)]
    rw [hv] at h64
    nlinarith
  rw [hzToNote, if_pos (by rw [if_pos rfl]; exact hlt)]

lemma transCost_uv_target {α : Type} [LinearOrderedField α] (uvPenalty prevNote curNote : α)
    (h : curNote ≤ 0) : transCost uvPenalty prevNote curNote = uvPenalty :=
  if_pos h

lemma transCost_v_from_uv {α : Type} [LinearOrderedField α] (uvPenalty prevNote curNote : α)
    (hc : ¬curNote ≤ 0) (hp : ¬0 < prevNote) :
    transCost uvPenalty prevNote curNote = 2 * uvPenalty := by
  rw [transCost, if_neg hc, if_neg hp, if_neg (by norm_num)]
  ring

lemma transCost_v_from_v {α : Type} [LinearOrderedField α] (uvPenalty prevNote curNote : α)
    (hc : ¬curNote ≤ 0) (hp : 0 < prevNote) :
    transCost uvPenalty prevNote curNote =
      if 0 < (prevNote - curNote) ^ 2 - 1 / 2 then (prevNote - curNote) ^ 2 - 1 / 2 else 0 := by
  rw [transCost, if_neg hc, if_pos hp]
  norm_num

lemma compensate_zero_shift {n : ℕ} (f0In : ℕ → Fin (n + 1) → ℝ) (t : ℕ) (c : Fin (n + 1)) :
    compensate f0In (fun _ => 0) t c = f0In t c := by
  rw [compensate, zero_div, Real.rpow_zero, div_one]

lemma argminFin_two {α : Type} [LinearOrder α] (f : Fin 2 → α) :
    argminFin f = if f 1 < f 0 then 1 else 0 := by
  have h : argminFin f = argminAux f 0 [0, 1] := rfl
  rw [h, argminAux, if_neg (lt_irrefl (f 0)), argminAux]
  by_cases h1 : f 1 < f 0
  · rw [if_pos h1, if_pos h1]; rfl
  · rw [if_neg h1, if_neg h1]; rfl

lemma minRow_two {α : Type} [LinearOrder α] (f : Fin 2 → α) :
    minRow f = if f 1 < f 0 then f 1 else f 0 := by
  rw [minRow, argminFin_two]
  by_cases h1 : f 1 < f 0
  · rw [if_pos h1, if_pos h1]
  · rw [if_neg h1, if_neg h1]

lemma ensembleNotes_vConst (t : ℕ) (c : Fin 2) :
    ensembleNotes vConstIn (fun _ => 0) t c = if c = 0 then 69 else 0 := by
  rw [ensembleNotes, compensate_zero_shift]
  by_cases hc : c = 0
  · simp [vConstIn, hc, hzToNote_440]
  · simp [vConstIn, hc, hzToNote_zero]

lemma notesV0 (t : ℕ) : ensembleNotes vConstIn (fun _ => 0) t 0 = 69 := by
  rw [ensembleNotes_vConst, if_pos rfl]

lemma notesV1 (t : ℕ) : ensembleNotes vConstIn (fun _ => 0) t 1 = 0 := by
  rw [ensembleNotes_vConst, if_neg (by decide : ¬(1 : Fin 2) = 0)]

lemma ensembleNotes_alt (t : ℕ) (c : Fin 2) :
    ensembleNotes altIn (fun _ => 0) t c =
      if c = 0 then (if t = 0 then 69 else 81) else 0 := by
  rw [ensembleNotes, compensate_zero_shift]
  by_cases hc : c = 0
  · cases t with
    | zero => simp [altIn, hc, hzToNote_440]
    | succ t => simp [altIn, hc, hzToNote_880]
  · simp [altIn, hc, hzToNote_zero]

lemma notesA00 : ensembleNotes altIn (fun _ => 0) 0 0 = 69 := by
  rw [ensembleNotes_alt]; norm_num

lemma notesA10 : ensembleNotes altIn (fun _ => 0) 1 0 = 81 := by
  rw [ensembleNotes_alt]; norm_num

lemma notesA1 (t : ℕ) : ensembleNotes altIn (fun _ => 0) t 1 = 0 := by
  rw [ensembleNotes_alt, if_neg (by decide : ¬(1 : Fin 2) = 0)]

lemma dpT_vConst (x : ℝ) (hx : 0 ≤ x) :
    ∀ t : ℕ, dpT x (ensembleNotes vConstIn (fun _ => 0)) t 0 = 0 ∧
      dpT x (ensembleNotes vConstIn (fun _ => 0)) t 1 = x := by
  intro t
  induction t with
  | zero =>
    constructor
    · rw [dpT, notesV0]; norm_num
    · rw [dpT, notesV1]; norm_num
  | succ t ih =>
    have hc0 : transCost x (ensembleNotes vConstIn (fun _ => 0) t 0)
        (ensembleNotes vConstIn (fun _ => 0) (t + 1) 0) = 0 := by
      rw [notesV0, notesV0, transCost_v_from_v _ _ _ (by norm_num) (by norm_num)]
      norm_num
    have hc1 : transCost x (ensembleNotes vConstIn (fun _ => 0) t 1)
        (ensembleNotes vConstIn (fun _ => 0) (t + 1) 0) = 2 * x := by
      rw [notesV1, notesV0]
      exact transCost_v_from_uv _ _ _ (by norm_num) (by norm_num)
    have hu : ∀ c : Fin 2, transCost x (ensembleNotes vConstIn (fun _ => 0) t c)
        (ensembleNotes vConstIn (fun _ => 0) (t + 1) 1) = x := by
      intro c
      rw [notesV1]
      exact transCost_uv_target _ _ _ (le_refl 0)
    constructor
    · rw [dpT, minRow_two]
      simp only [hc0, hc1, ih.1, ih.2]
      rw [if_neg (by nlinarith)]
      norm_num
    · rw [dpT, minRow_two]
      simp only [hu, ih.1, ih.2]
      rw [if_neg (by nlinarith)]
      norm_num

lemma chosenIdx_vConst (x : ℝ) (hx : 0 ≤ x) (tLast : ℕ) :
    ∀ i : ℕ, chosenIdx x (ensembleNotes vConstIn (fun _ => 0)) tLast i = 0 := by
  intro i
  induction i with
  | zero =>
    rw [chosenIdx, argminFin_two, (dpT_vConst x hx tLast).1, (dpT_vConst x hx tLast).2,
      if_neg (not_lt.mpr hx)]
  | succ i ih =>
    rw [chosenIdx, ih]
    cases h : tLast - i with
    | zero => rw [backtrack]
    | succ s =>
      rw [backtrack, argminFin_two]
      have hc0 : transCost x (ensembleNotes vConstIn (fun _ => 0) s 0)
          (ensembleNotes vConstIn (fun _ => 0) (s + 1) 0) = 0 := by
        rw [notesV0, notesV0, transCost_v_from_v _ _ _ (by norm_num) (by norm_num)]
        norm_num
      have hc1 : transCost x (ensembleNotes vConstIn (fun _ => 0) s 1)
          (ensembleNotes vConstIn (fun _ => 0) (s + 1) 0) = 2 * x := by
        rw [notesV1, notesV0]
        exact transCost_v_from_uv _ _ _ (by norm_num) (by norm_num)
      simp only [hc0, hc1, (dpT_vConst x hx s).1, (dpT_vConst x hx s).2]
      rw [if_neg (by nlinarith)]

lemma ensemble_vConst (b : ℝ) (tLast t : ℕ) :
    ensemble_f0 vConstIn (fun _ => 0) b tLast t = 440 := by
  rw [ensemble_f0]
  rw [chosenIdx_vConst (b ^ 2) (sq_nonneg b) tLast (tLast - t), compensate_zero_shift]
  simp [vConstIn]

lemma dpT_one {α : Type} [LinearOrderedField α] {n : ℕ} (uvPenalty : α)
    (note : ℕ → Fin (n + 1) → α) (c : Fin (n + 1)) :
    dpT uvPenalty note 1 c =
      minRow (fun cp => dpT uvPenalty note 0 cp + transCost uvPenalty (note 0 cp) (note 1 c)) :=
  rfl

lemma backtrack_one {α : Type} [LinearOrderedField α] {n : ℕ} (uvPenalty : α)
    (note : ℕ → Fin (n + 1) → α) (c : Fin (n + 1)) :
    backtrack uvPenalty note 1 c =
      argminFin (fun cp => dpT uvPenalty note 0 cp + transCost uvPenalty (note 0 cp) (note 1 c)) :=
  rfl

lemma chosenIdx_one {α : Type} [LinearOrderedField α] {n : ℕ} (uvPenalty : α)
    (note : ℕ → Fin (n + 1) → α) (tLast : ℕ) :
    chosenIdx uvPenalty note tLast 1 =
      backtrack uvPenalty note tLast (chosenIdx uvPenalty note tLast 0) :=
  rfl

lemma alt_eval_13 :
    ensemble_f0 altIn (fun _ => 0) (-13) 1 0 = 440 ∧
      ensemble_f0 altIn (fun _ => 0) (-13) 1 1 = 880 := by
  have hx : ((-13 : ℝ)) ^ 2 = 169 := by norm_num
  have hdp00 : dpT 169 (ensembleNotes altIn (fun _ => 0)) 0 0 = 0 := by
    rw [dpT, notesA00]; norm_num
  have hdp01 : dpT 169 (ensembleNotes altIn (fun _ => 0)) 0 1 = 169 := by
    rw [dpT, notesA1]; norm_num
  have htc00 : transCost 169 (ensembleNotes altIn (fun _ => 0) 0 0)
      (ensembleNotes altIn (fun _ => 0) 1 0) = 287 / 2 := by
    rw [notesA00, notesA10, transCost_v_from_v _ _ _ (by norm_num) (by norm_num)]
    norm_num
  have htc10 : transCost 169 (ensembleNotes altIn (fun _ => 0) 0 1)
      (ensembleNotes altIn (fun _ => 0) 1 0) = 338 := by
    rw [notesA1, notesA10, transCost_v_from_uv _ _ _ (by norm_num) (by norm_num)]
    norm_num
  have htcu : ∀ c : Fin 2, transCost 169 (ensembleNotes altIn (fun _ => 0) 0 c)
      (ensembleNotes altIn (fun _ => 0) 1 1) = 169 := by
    intro c
    rw [notesA1 1]
    exact transCost_uv_target _ _ _ (le_refl 0)
  have hdp10 : dpT 169 (ensembleNotes altIn (fun _ => 0)) 1 0 = 287 / 2 := by
    rw [dpT_one, minRow_two]
    simp only [hdp00, hdp01, htc00, htc10]
    norm_num
  have hdp11 : dpT 169 (ensembleNotes altIn (fun _ => 0)) 1 1 = 169 := by
    rw [dpT_one, minRow_two]
    simp only [hdp00, hdp01, htcu 0, htcu 1]
    norm_num
  have hch0 : chosenIdx 169 (ensembleNotes altIn (fun _ => 0)) 1 0 = 0 := by
    rw [chosenIdx, argminFin_two, hdp10, hdp11, if_neg (by norm_num)]
  have hch1 : chosenIdx 169 (ensembleNotes altIn (fun _ => 0)) 1 1 = 0 := by
    rw [chosenIdx_one, hch0, backtrack_one, argminFin_two]
    simp only [hdp00, hdp01, htc00, htc10]
    rw [if_neg (by norm_num)]
  constructor
  · show compensate altIn (fun _ => 0) 0
      (chosenIdx ((-13 : ℝ) ^ 2) (ensembleNotes altIn (fun _ => 0)) 1 (1 - 0)) = 440
    rw [show (1 : ℕ) - 0 = 1 from rfl, hx, hch1, compensate_zero_shift]
    simp [altIn]
  · show compensate altIn (fun _ => 0) 1
      (chosenIdx ((-13 : ℝ) ^ 2) (ensembleNotes altIn (fun _ => 0)) 1 (1 - 1)) = 880
    rw [show (1 : ℕ) - 1 = 0 from rfl, hx, hch0, compensate_zero_shift]
    simp [altIn]

lemma alt_eval_1 :
    ensemble_f0 altIn (fun _ => 0) (-1) 1 0 = 440 ∧
      ensemble_f0 altIn (fun _ => 0) (-1) 1 1 = 0 := by
  have hx : ((-1 : ℝ)) ^ 2 = 1 := by norm_num
  have hdp00 : dpT 1 (ensembleNotes altIn (fun _ => 0)) 0 0 = 0 := by
    rw [dpT, notesA00]; norm_num
  have hdp01 : dpT 1 (ensembleNotes altIn (fun _ => 0)) 0 1 = 1 := by
    rw [dpT, notesA1]; norm_num
  have htc00 : transCost (1 : ℝ) (ensembleNotes altIn (fun _ => 0) 0 0)
      (ensembleNotes altIn (fun _ => 0) 1 0) = 287 / 2 := by
    rw [notesA00, notesA10, transCost_v_from_v _ _ _ (by norm_num) (by norm_num)]
    norm_num
  have htc10 : transCost (1 : ℝ) (ensembleNotes altIn (fun _ => 0) 0 1)
      (ensembleNotes altIn (fun _ => 0) 1 0) = 2 := by
    rw [notesA1, notesA10, transCost_v_from_uv _ _ _ (by norm_num) (by norm_num)]
    norm_num
  have htcu : ∀ c : Fin 2, transCost (1 : ℝ) (ensembleNotes altIn (fun _ => 0) 0 c)
      (ensembleNotes altIn (fun _ => 0) 1 1) = 1 := by
    intro c
    rw [notesA1 1]
    exact transCost_uv_target _ _ _ (le_refl 0)
  have hdp10 : dpT 1 (ensembleNotes altIn (fun _ => 0)) 1 0 = 3 := by
    rw [dpT_one, minRow_two]
    simp only [hdp00, hdp01, htc00, htc10]
    norm_num
  have hdp11 : dpT 1 (ensembleNotes altIn (fun _ => 0)) 1 1 = 1 := by
    rw [dpT_one, minRow_two]
    simp only [hdp00, hdp01, htcu 0, htcu 1]
    norm_num
  have hch0 : chosenIdx 1 (ensembleNotes altIn (fun _ => 0)) 1 0 = 1 := by
    rw [chosenIdx, argminFin_two, hdp10, hdp11, if_pos (by norm_num)]
  have hch1 : chosenIdx 1 (ensembleNotes altIn (fun _ => 0)) 1 1 = 0 := by
    rw [chosenIdx_one, hch0, backtrack_one, argminFin_two]
    simp only [hdp00, hdp01, htcu 0, htcu 1]
    rw [if_neg (by norm_num)]
  constructor
  · show compensate altIn (fun _ => 0) 0
      (chosenIdx ((-1 : ℝ) ^ 2) (ensembleNotes altIn (fun _ => 0)) 1 (1 - 0)) = 440
    rw [show (1 : ℕ) - 0 = 1 from rfl, hx, hch1, compensate_zero_shift]
    simp [altIn]
  · show compensate altIn (fun _ => 0) 1
      (chosenIdx ((-1 : ℝ) ^ 2) (ensembleNotes altIn (fun _ => 0)) 1 (1 - 1)) = 0
    rw [show (1 : ℕ) - 1 = 0 from rfl, hx, hch0, compensate_zero_shift]
    simp [altIn]

lemma ttaSortKey_vals : ttaSortKey (-12) = 6 ∧ ttaSortKey 12 = 12 ∧ ttaSortKey 0 = 0 := by
  refine ⟨?_, ?_, ?_⟩ <;> norm_num [ttaSortKey]

lemma sortShifts_default : sortShifts [0, -12, 12] = [0, -12, 12] := by
  norm_num [sortShifts, List.insertionSort, List.orderedInsert, ttaSortKey]

/-- C1 (counterexample): with a single hypothesis at key shift 12 whose
raw value is 880 Hz on its one frame, `ensemble_f0` emits 440 Hz, the
compensated value, not the original 880 Hz — compensation does alter
the emitted frequency, because line 23 of the source stores the
compensated sequence back into `f0_list` before the backtrack reads it. -/
theorem c1_compensation_alters_output :
    ensemble_f0 (fun _ _ => (880 : ℝ)) (fun _ : Fin 1 => 12) 12 0 0 = 440 ∧
      (440 : ℝ) ≠ 880 := by
  constructor
  · simp only [ensemble_f0, compensate]
    rw [show ((12 : ℝ) / 12) = 1 by norm_num, Real.rpow_one]
    norm_num
  · norm_num

/-- C1 (amended): the Hz value `ensemble_f0` emits at every frame is
selected verbatim from the key-shift-compensated hypothesis sequences
`f0 / 2^(shift/12)`; for a shift-0 hypothesis this is the original
value, but a nonzero shift scales the emitted frequency. -/
theorem c1_output_selected_from_compensated {n : ℕ} (f0In : ℕ → Fin (n + 1) → ℝ)
    (keyShift : Fin (n + 1) → ℝ) (ttaUvPenalty : ℝ) (tLast t : ℕ) :
    ∃ c : Fin (n + 1),
      ensemble_f0 f0In keyShift ttaUvPenalty tLast t = compensate f0In keyShift t c :=
  ⟨_, rfl⟩

/-- C2 (counterexample): sorting the default shift list `[0, -12, 12]`
with the key `x if x >= 0 else -x/2` does not produce `[0, 12, -12]`. -/
theorem c2_default_shifts_counterexample :
    sortShifts [0, -12, 12] ≠ [0, 12, -12] := by
  rw [sortShifts_default]
  simp only [ne_eq, List.cons.injEq]
  norm_num

/-- C2 (amended): under the key `x if x >= 0 else -x/2` the keys of
`0, -12, 12` are `0, 6, 12`, so the list `[0, -12, 12]` is ordered as
`0, -12, 12`: the negative shift is visited before the positive shift
of equal magnitude. -/
theorem c2_default_shifts_order :
    ttaSortKey (-12) = 6 ∧ ttaSortKey 12 = 12 ∧ ttaSortKey 0 = 0 ∧
      sortShifts [0, -12, 12] = [0, -12, 12] :=
  ⟨ttaSortKey_vals.1, ttaSortKey_vals.2.1, ttaSortKey_vals.2.2, sortShifts_default⟩

/-- C3 (counterexample): in the recurrence of `ensemble_f0`, arriving
at a voiced candidate of note 69 from an unvoiced predecessor of note 0
with `uv_penalty = 1` costs 2, not the claimed
`max(0, (0 - 69)^2 - 0.5) + 2 * 1`. -/
theorem c3_unvoiced_pred_cost_counterexample :
    transCost (1 : ℚ) 0 69 ≠ max 0 ((0 - 69) ^ 2 - 1 / 2) + 2 * 1 := by
  have h1 : transCost (1 : ℚ) 0 69 = 2 := by
    rw [transCost_v_from_uv _ _ _ (by norm_num) (by norm_num)]
    norm_num
  have h2 : max (0 : ℚ) ((0 - 69) ^ 2 - 1 / 2) = (0 - 69) ^ 2 - 1 / 2 :=
    max_eq_right (by norm_num)
  rw [h1, h2]
  norm_num

/-- C3 (amended): in the `ensemble_f0` recurrence, the transition cost
from an unvoiced predecessor to a voiced candidate is exactly
`2 * uv_penalty`: the dead-zone distance term vanishes because the
squared note distance is multiplied by the predecessor's voiced
indicator before the dead zone is applied. -/
theorem c3_unvoiced_pred_cost (uvPenalty prevNote curNote : ℝ)
    (hp : prevNote ≤ 0) (hc : 0 < curNote) :
    transCost uvPenalty prevNote curNote = 2 * uvPenalty :=
  transCost_v_from_uv uvPenalty prevNote curNote (not_le.mpr hc) (not_lt.mpr hp)

theorem c3_unvoiced_pred_cost_witness :
    (0 : ℝ) ≤ 0 ∧ (0 : ℝ) < 1 ∧ transCost (3 : ℝ) 0 1 = 2 * 3 :=
  ⟨le_refl 0, by norm_num, c3_unvoiced_pred_cost 3 0 1 (le_refl 0) (by norm_num)⟩

/-- C4: for every input to `ensemble_f0`, each dp entry is the least
accumulated penalty over all hypothesis paths through frames `0..t`
ending at hypothesis `c`, the path reconstructed by the backtrack walk
attains the minimum of the final dp row, and the output emits, at every
frame, the compensated Hz value of the hypothesis that path visits. -/
theorem c4_dp_viterbi {n : ℕ} (f0In : ℕ → Fin (n + 1) → ℝ)
    (keyShift : Fin (n + 1) → ℝ) (ttaUvPenalty : ℝ) (tLast t : ℕ) (c : Fin (n + 1)) :
    IsLeast {x : ℝ | ∃ p : ℕ → Fin (n + 1), p t = c ∧
        pathCost (ttaUvPenalty ^ 2) (ensembleNotes f0In keyShift) p t = x}
      (dpT (ttaUvPenalty ^ 2) (ensembleNotes f0In keyShift) t c) ∧
    pathCost (ttaUvPenalty ^ 2) (ensembleNotes f0In keyShift)
        (fun s => chosenIdx (ttaUvPenalty ^ 2) (ensembleNotes f0In keyShift) tLast (tLast - s))
        tLast =
      minRow (dpT (ttaUvPenalty ^ 2) (ensembleNotes f0In keyShift) tLast) ∧
    (∀ cf : Fin (n + 1),
      minRow (dpT (ttaUvPenalty ^ 2) (ensembleNotes f0In keyShift) tLast) ≤
        dpT (ttaUvPenalty ^ 2) (ensembleNotes f0In keyShift) tLast cf) ∧
    ∀ s : ℕ, ensemble_f0 f0In keyShift ttaUvPenalty tLast s =
      compensate f0In keyShift s
        (chosenIdx (ttaUvPenalty ^ 2) (ensembleNotes f0In keyShift) tLast (tLast - s)) := by
  refine ⟨⟨exists_path_pathCost_eq_dpT _ _ t c, ?_⟩, ?_, fun cf => minRow_le _ cf, fun s => rfl⟩
  · rintro x ⟨p, hp, rfl⟩
    exact dpT_le_pathCost _ _ t c p hp
  · have h := pathCost_chosenIdx (ttaUvPenalty ^ 2) (ensembleNotes f0In keyShift) tLast
      tLast (le_refl tLast)
    rw [h, Nat.sub_self]
    rfl

/-- C5 (code divergence): a call with the voicing mask requested and no
output interpolation target does not return the pair; the source
evaluates `int(None)` at the unconditional `uv` resampling (lines
198-202) and raises `TypeError` before returning. -/
theorem c5_retur_uv_crashes_without_target (extract : ℚ → List ℝ)
    (fillGaps : List ℝ → List ℝ → List ℝ) (modelF0Min : ℝ) (f0Min f0Max : Option ℝ)
    (interpUv : Bool) (ttaUvPenalty : ℝ) (ttaKeyShifts : List ℚ) (useOriginUv : Bool) :
    infer extract fillGaps modelF0Min f0Min f0Max interpUv none true false ttaUvPenalty
        ttaKeyShifts useOriginUv =
      Except.error "TypeError: int() argument must be a number, not NoneType" :=
  rfl

/-- C6: with a single hypothesis at key shift 0, `ensemble_f0` returns
the input sequence unchanged, frame for frame, for any penalty base. -/
theorem c6_single_hypothesis_identity (f0In : ℕ → Fin 1 → ℝ) (ttaUvPenalty : ℝ)
    (tLast t : ℕ) :
    ensemble_f0 f0In (fun _ => 0) ttaUvPenalty tLast t = f0In t 0 := by
  simp only [ensemble_f0]
  have hz : chosenIdx (ttaUvPenalty ^ 2) (ensembleNotes f0In fun _ => 0) tLast (tLast - t) = 0 := by
    apply Fin.ext
    have := (chosenIdx (ttaUvPenalty ^ 2) (ensembleNotes f0In fun _ => 0) tLast (tLast - t)).isLt
    omega
  rw [hz, compensate_zero_shift]

/-- C7 (counterexample): increasing the penalty base from -13 to -1
strictly decreases the number of voiced frames decoded by `ensemble_f0`
on a fixed two-hypothesis input (440/880 Hz versus silence at key shift
0): the base is squared, so the effective unvoiced penalty drops from
169 to 1 and the second frame flips from 880 Hz to unvoiced. -/
theorem c7_increasing_base_can_reduce_voiced :
    (-13 : ℝ) < -1 ∧
      voicedCountR (ensemble_f0 altIn (fun _ => 0) (-13) 1) 2 = 2 ∧
      voicedCountR (ensemble_f0 altIn (fun _ => 0) (-1) 1) 2 = 1 := by
  refine ⟨by norm_num, ?_, ?_⟩
  · have hfil : (Finset.range 2).filter
        (fun t => ensemble_f0 altIn (fun _ => 0) (-13) 1 t ≠ 0) = Finset.range 2 := by
      apply Finset.filter_true_of_mem
      intro t ht
      rw [Finset.mem_range] at ht
      interval_cases t
      · rw [alt_eval_13.1]; norm_num
      · rw [alt_eval_13.2]; norm_num
    rw [voicedCountR, hfil, Finset.card_range]
  · rw [voicedCountR, show Finset.range 2 = ({0, 1} : Finset ℕ) from by decide,
      Finset.filter_insert, if_pos (by rw [alt_eval_1.1]; norm_num),
      Finset.filter_singleton, if_neg (by rw [alt_eval_1.2]; simp)]
    simp

/-- C7 (amended): in the spec's verification scenario -- two hypotheses
at key shift 0, the first all-voiced at a constant 440 Hz, the second
all-unvoiced -- the decoded output is the all-voiced hypothesis for
every penalty base, so the voiced-frame count is constant and in
particular never decreases as the base increases. -/
theorem c7_all_voiced_scenario_monotone :
    (∀ (b : ℝ) (tLast t : ℕ), ensemble_f0 vConstIn (fun _ => 0) b tLast t = 440) ∧
    ∀ (b1 b2 : ℝ) (tLast tCount : ℕ),
      voicedCountR (ensemble_f0 vConstIn (fun _ => 0) b1 tLast) tCount ≤
        voicedCountR (ensemble_f0 vConstIn (fun _ => 0) b2 tLast) tCount := by
  refine ⟨ensemble_vConst, ?_⟩
  intro b1 b2 tLast tCount
  have hcount : ∀ b : ℝ,
      voicedCountR (ensemble_f0 vConstIn (fun _ => 0) b tLast) tCount = tCount := by
    intro b
    have hfil : (Finset.range tCount).filter
        (fun t => ensemble_f0 vConstIn (fun _ => 0) b tLast t ≠ 0) = Finset.range tCount := by
      apply Finset.filter_true_of_mem
      intro t ht
      rw [ensemble_vConst]
      norm_num
    rw [voicedCountR, hfil, Finset.card_range]
  rw [hcount b1, hcount b2]

/-- C8: with augmentation requested and an empty key-shift list, `infer`
fails with the assertion error, whatever the extractor and all other
arguments are -- no pitch extraction takes place. -/
theorem c8_empty_shifts_config_error (extract : ℚ → List ℝ)
    (fillGaps : List ℝ → List ℝ → List ℝ) (modelF0Min : ℝ) (f0Min f0Max : Option ℝ)
    (interpUv : Bool) (target : Option ℕ) (returUv : Bool) (ttaUvPenalty : ℝ)
    (useOriginUv : Bool) :
    infer extract fillGaps modelF0Min f0Min f0Max interpUv target returUv true
        ttaUvPenalty [] useOriginUv =
      Except.error "AssertionError: assert len(tta_key_shifts) > 0" :=
  rfl

/-- C9: when every hypothesis is 0 Hz at every frame, `ensemble_f0`
returns an all-zero sequence. -/
theorem c9_all_unvoiced_zero_output {n : ℕ} (f0In : ℕ → Fin (n + 1) → ℝ)
    (keyShift : Fin (n + 1) → ℝ) (ttaUvPenalty : ℝ) (tLast t : ℕ)
    (h : ∀ (s : ℕ) (c : Fin (n + 1)), f0In s c = 0) :
    ensemble_f0 f0In keyShift ttaUvPenalty tLast t = 0 := by
  simp only [ensemble_f0, compensate, h, zero_div]

theorem c9_all_unvoiced_zero_output_witness :
    (∀ (s : ℕ) (c : Fin 1), (fun _ _ => (0 : ℝ)) s c = 0) ∧
      ensemble_f0 (n := 0) (fun _ _ => (0 : ℝ)) (fun _ => 12) 5 3 2 = 0 :=
  ⟨fun _ _ => rfl, c9_all_unvoiced_zero_output _ _ _ _ _ (fun _ _ => rfl)⟩

/-- C10 (counterexample): calling `infer` with augmentation on the
default key-shift list `[0, -12, 12]` leaves the list in its original
order -- the in-place sort is a no-op there because the list is already
ordered by the key (keys 0, 6, 12) -- so the default list is not
reordered. -/
theorem c10_default_list_not_reordered :
    infer (fun _ => []) (fun _ f => f) 32 none none false none false true 12
        [0, -12, 12] false =
      Except.ok ⟨[], none, [0, -12, 12]⟩ := by
  rw [infer, if_pos rfl, if_neg (by simp), sortShifts_default]
  rfl

/-- C10 (amended): with augmentation enabled and a nonempty key-shift
list, the state of the caller's list after `infer` is the stable
key-sort of the list it passed in -- an in-place reordering whenever the
input was not already in key order (the embedding is otherwise pure, so
no other input is modified). -/
theorem c10_shifts_state_is_sorted (extract : ℚ → List ℝ)
    (fillGaps : List ℝ → List ℝ → List ℝ) (modelF0Min : ℝ) (f0Min f0Max : Option ℝ)
    (interpUv : Bool) (ttaUvPenalty : ℝ) (useOriginUv : Bool) (ttaKeyShifts : List ℚ)
    (h : ttaKeyShifts ≠ []) :
    (infer extract fillGaps modelF0Min f0Min f0Max interpUv none false true ttaUvPenalty
        ttaKeyShifts useOriginUv).map InferResult.keyShifts =
      Except.ok (sortShifts ttaKeyShifts) := by
  rw [infer, if_pos rfl, if_neg h]
  rfl

theorem c10_shifts_state_is_sorted_witness :
    ([12, -12, 0] : List ℚ) ≠ [] ∧
      (infer (fun _ => []) (fun _ f => f) 32 none none false none false true 12
          [12, -12, 0] false).map InferResult.keyShifts =
        Except.ok (sortShifts [12, -12, 0]) :=
  ⟨by simp, c10_shifts_state_is_sorted _ _ _ _ _ _ _ _ _ (by simp)⟩
